import Mathlib

/-!
Verification of the data and cursor core of `plot.py` (misawa-san/plot).

The embedding models:
* the incremental columnar-cache layer (`refresh_parquet_from_csv`, the
  `__main__` bootstrap, `load_data_window`) as functions over an explicit
  file-system state (`FS`), with injectable write failures (`Faults`)
  standing for the I/O errors the try/except blocks catch;
* the cursor logic (`jump_to_edge`, the shared nearest-row resolution
  `np.argmin(np.abs(times - t))` / `Series.abs().idxmin()`);
* the delta-measurement bookkeeping (`on_mouse_click` CTRL branch,
  `draw_delta_lines`);
* the config loading path (`load_plot_config`, `load_data_and_create_plots`).

Machine floats are modelled as rationals; pandas frames as lists of rows
(cache layer) or as a time column plus named value columns (cursor layer).
Widget and rendering state is not modelled.
-/

/-- One row of the source log / columnar cache: the first CSV column renamed
to `time`, plus the remaining channel-value columns. -/
structure Row where
  time : ℚ
  vals : List ℚ
deriving DecidableEq

/-- `df_csv["time"].max()` over a list of rows (pandas max of the time
column; only applied to non-empty frames by the code paths modelled). -/
def maxTime : List Row → ℚ
  | [] => 0
  | r :: rs => rs.foldl (fun a x => max a x.time) r.time

/-- The on-disk state the cache layer touches.  For the two text inputs,
`none` means the file is missing and `some none` means it exists but fails
to parse (`pd.read_csv` error for the source, `float()` error for the
high-water-mark file).  The parquet cache either reads back as a list of
rows or is missing/unreadable (`none`). -/
structure FS where
  csv : Option (Option (List Row))
  timeFile : Option (Option ℚ)
  parquet : Option (List Row)
deriving DecidableEq

/-- Injectable I/O failures for the two writes `refresh_parquet_from_csv`
performs: `df_combined.to_parquet` and the high-water-mark `tf.write`.  A
failing write raises inside the try block, leaving its target file
unchanged. -/
structure Faults where
  parquetWriteFails : Bool
  timeWriteFails : Bool
deriving DecidableEq

/-- No injected failures: the normal successful execution. -/
def noFaults : Faults := ⟨false, false⟩

/-- `PlotWindow.refresh_parquet_from_csv` (src/plot.py lines 198-218).
Early return when the source CSV or the high-water-mark file is missing;
otherwise the body runs under a catch-all `except` which logs and returns,
so every failure path yields whatever state the completed writes left
behind.  The filter keeps rows with `time > last_time`; when non-empty, the
cache is read, the concatenation is written back, and only then is the
high-water mark rewritten to `df_csv["time"].max()` (the max over the whole
source). -/
def refresh_parquet_from_csv (flt : Faults) (fs : FS) : FS :=
  match fs.csv, fs.timeFile with
  | some csvC, some tfC =>
    match tfC with
    | none => fs
    | some lastTime =>
      match csvC with
      | none => fs
      | some rows =>
        let dfNew := rows.filter (fun r => decide (lastTime < r.time))
        if dfNew = [] then fs
        else
          match fs.parquet with
          | none => fs
          | some pq =>
            if flt.parquetWriteFails then fs
            else
              let fs1 : FS := { fs with parquet := some (pq ++ dfNew) }
              if flt.timeWriteFails then fs1
              else { fs1 with timeFile := some (some (maxTime rows)) }
  | _, _ => fs

/-- Fault-free refresh. -/
def refresh (fs : FS) : FS := refresh_parquet_from_csv noFaults fs

/-- The `__main__` bootstrap (src/plot.py lines 656-682).  When the parquet
cache or the high-water-mark file is missing, the whole source is written
as the cache and the mark is set to its max time; otherwise the same
incremental update as `refresh_parquet_from_csv` runs.  Nothing here is
inside a try block, so a read failure crashes the process (`none`). -/
def bootstrap (fs : FS) : Option FS :=
  match fs.parquet, fs.timeFile with
  | some pq, some tfC =>
    match tfC with
    | none => none
    | some lastTime =>
      match fs.csv with
      | some (some rows) =>
        let dfNew := rows.filter (fun r => decide (lastTime < r.time))
        if dfNew = [] then some fs
        else some { fs with parquet := some (pq ++ dfNew),
                            timeFile := some (some (maxTime rows)) }
      | _ => none
  | _, _ =>
    match fs.csv with
    | some (some rows) =>
      some { fs with parquet := some rows, timeFile := some (some (maxTime rows)) }
    | _ => none

/-- `PlotWindow.load_data_window` (src/plot.py lines 220-234): refresh the
cache, then read only rows with `time` in
`[center_time - window, center_time + window]`; every failure (here: the
cache unreadable) is caught and an empty frame is returned. -/
def load_data_window (flt : Faults) (fs : FS) (center_time window : ℚ) :
    List Row × FS :=
  let fs1 := refresh_parquet_from_csv flt fs
  match fs1.parquet with
  | none => ([], fs1)
  | some pq =>
    (pq.filter (fun r =>
        decide (center_time - window ≤ r.time) && decide (r.time ≤ center_time + window)),
      fs1)

/-- One step of a sequence of refresh calls: between ticks the source log
may have been rewritten by the external monitor process, and any I/O
failures may occur. -/
def stepRefresh (s : FS) (p : Faults × Option (Option (List Row))) : FS :=
  refresh_parquet_from_csv p.1 { s with csv := p.2 }

/-- A whole sequence of refresh calls, each with its own source-log content
and fault pattern. -/
def refreshSeq (fs : FS) (steps : List (Faults × Option (Option (List Row)))) : FS :=
  steps.foldl stepRefresh fs

/-- The high-water-mark invariant of the spec, as a decidable check: when
the mark file holds a parsed value, the parquet cache is readable and holds
a row whose time is at least the mark. -/
def hwmWithinCache (fs : FS) : Bool :=
  match fs.timeFile, fs.parquet with
  | some (some q), some pq => pq.any (fun r => decide (q ≤ r.time))
  | some (some _), none => false
  | _, _ => true

/-- Propositional form of `hwmWithinCache`: the high-water mark never
exceeds the max time present in the columnar cache. -/
def HwmInv (fs : FS) : Prop := hwmWithinCache fs = true

instance (fs : FS) : Decidable (HwmInv fs) := by
  unfold HwmInv; infer_instance

lemma foldl_maxTime_le (l : List Row) (a : ℚ) :
    a ≤ l.foldl (fun b x => max b x.time) a := by
  induction l generalizing a with
  | nil => simp
  | cons x xs ih => exact le_trans (le_max_left a x.time) (ih (max a x.time))

lemma foldl_maxTime_mem_le {l : List Row} {r : Row} (a : ℚ) (h : r ∈ l) :
    r.time ≤ l.foldl (fun b x => max b x.time) a := by
  induction l generalizing a with
  | nil => cases h
  | cons x xs ih =>
    rcases List.mem_cons.mp h with rfl | hx
    · exact le_trans (le_max_right a r.time) (foldl_maxTime_le xs (max a r.time))
    · exact ih (max a x.time) hx

lemma foldl_maxTime_cases (l : List Row) (a : ℚ) :
    l.foldl (fun b x => max b x.time) a = a ∨
      ∃ r ∈ l, l.foldl (fun b x => max b x.time) a = r.time := by
  induction l generalizing a with
  | nil => exact Or.inl rfl
  | cons x xs ih =>
    rcases ih (max a x.time) with h | ⟨r, hr, h⟩
    · rcases max_choice a x.time with hm | hm
      · exact Or.inl (by rw [List.foldl_cons, h, hm])
      · exact Or.inr ⟨x, List.mem_cons_self x xs, by rw [List.foldl_cons, h, hm]⟩
    · exact Or.inr ⟨r, List.mem_cons_of_mem x hr, h⟩

lemma le_maxTime {l : List Row} {r : Row} (h : r ∈ l) : r.time ≤ maxTime l := by
  cases l with
  | nil => cases h
  | cons x xs =>
    rcases List.mem_cons.mp h with rfl | hx
    · exact foldl_maxTime_le xs r.time
    · exact foldl_maxTime_mem_le x.time hx

lemma maxTime_attained {l : List Row} (h : l ≠ []) :
    ∃ r ∈ l, maxTime l = r.time := by
  cases l with
  | nil => exact absurd rfl h
  | cons x xs =>
    rcases foldl_maxTime_cases xs x.time with hc | ⟨r, hr, hc⟩
    · exact ⟨x, List.mem_cons_self x xs, hc⟩
    · exact ⟨r, List.mem_cons_of_mem x hr, hc⟩

/-- Claim C1: starting from a cache of N previously ingested rows (all at or
below the high-water mark, sorted by time) and a source log extended by M
new rows all strictly above the mark (source in non-decreasing time order),
`refresh()` leaves the columnar cache holding exactly N+M rows, sorted
ascending by time. -/
theorem C1_no_data_loss (cache oldSrc newRows : List Row) (hw : ℚ)
    (hcache_hw : ∀ r ∈ cache, r.time ≤ hw)
    (hcache_sorted : List.Sorted (· ≤ ·) (cache.map Row.time))
    (hold : ∀ r ∈ oldSrc, r.time ≤ hw)
    (hnew : ∀ r ∈ newRows, hw < r.time)
    (hsrc_sorted : List.Sorted (· ≤ ·) ((oldSrc ++ newRows).map Row.time)) :
    (refresh ⟨some (some (oldSrc ++ newRows)), some (some hw), some cache⟩).parquet
        = some (cache ++ newRows) ∧
    (cache ++ newRows).length = cache.length + newRows.length ∧
    List.Sorted (· ≤ ·) ((cache ++ newRows).map Row.time) := by
  have hfilter : (oldSrc ++ newRows).filter (fun r => decide (hw < r.time))
      = newRows := by
    rw [List.filter_append]
    have h1 : oldSrc.filter (fun r => decide (hw < r.time)) = [] :=
      List.filter_eq_nil_iff.mpr (fun a ha => by simpa using not_lt.mpr (hold a ha))
    have h2 : newRows.filter (fun r => decide (hw < r.time)) = newRows :=
      List.filter_eq_self.mpr (fun a ha => by simpa using hnew a ha)
    rw [h1, h2, List.nil_append]
  refine ⟨?_, List.length_append cache newRows, ?_⟩
  · simp only [refresh, refresh_parquet_from_csv]
    rw [hfilter]
    by_cases hN : newRows = []
    · subst hN
      simp
    · simp [hN, noFaults]
  · have hnewSorted : List.Sorted (· ≤ ·) (newRows.map Row.time) := by
      rw [List.map_append] at hsrc_sorted
      exact (List.pairwise_append.mp hsrc_sorted).2.1
    rw [List.map_append]
    refine List.pairwise_append.mpr ⟨hcache_sorted, hnewSorted, ?_⟩
    intro a ha b hb
    obtain ⟨r, hr, rfl⟩ := List.mem_map.mp ha
    obtain ⟨s, hs, rfl⟩ := List.mem_map.mp hb
    exact le_trans (hcache_hw r hr) (le_of_lt (hnew s hs))

theorem C1_witness :
    (refresh ⟨some (some ([(⟨0, []⟩ : Row)] ++ [⟨1, []⟩])), some (some 0),
        some [⟨0, []⟩]⟩).parquet = some ([(⟨0, []⟩ : Row)] ++ [⟨1, []⟩]) ∧
    ([(⟨0, []⟩ : Row)] ++ [(⟨1, []⟩ : Row)]).length
        = [(⟨0, []⟩ : Row)].length + [(⟨1, []⟩ : Row)].length ∧
    List.Sorted (· ≤ ·) (([(⟨0, []⟩ : Row)] ++ [(⟨1, []⟩ : Row)]).map Row.time) :=
  C1_no_data_loss [⟨0, []⟩] [⟨0, []⟩] [⟨1, []⟩] 0
    (by decide) (by decide) (by decide) (by decide) (by decide)

/-- Claim C2: when no source row lies strictly above the high-water mark,
`refresh()` is a no-op, and so is a second call right after it: cache and
high-water-mark file are exactly unchanged after each call (for any cache
content and any fault pattern, since no write is attempted). -/
theorem C2_idempotent_refresh (rows : List Row) (hw : ℚ) (pq : Option (List Row))
    (flt flt2 : Faults)
    (hnonew : ∀ r ∈ rows, r.time ≤ hw) :
    refresh_parquet_from_csv flt (⟨some (some rows), some (some hw), pq⟩ : FS)
        = (⟨some (some rows), some (some hw), pq⟩ : FS) ∧
    refresh_parquet_from_csv flt2 (refresh_parquet_from_csv flt
        (⟨some (some rows), some (some hw), pq⟩ : FS))
        = (⟨some (some rows), some (some hw), pq⟩ : FS) := by
  have hfilter : rows.filter (fun r => decide (hw < r.time)) = [] :=
    List.filter_eq_nil_iff.mpr (fun a ha => by simpa using not_lt.mpr (hnonew a ha))
  have h1 : refresh_parquet_from_csv flt (⟨some (some rows), some (some hw), pq⟩ : FS)
      = (⟨some (some rows), some (some hw), pq⟩ : FS) := by
    simp only [refresh_parquet_from_csv]
    rw [hfilter]
    simp
  have h2 : refresh_parquet_from_csv flt2 (⟨some (some rows), some (some hw), pq⟩ : FS)
      = (⟨some (some rows), some (some hw), pq⟩ : FS) := by
    simp only [refresh_parquet_from_csv]
    rw [hfilter]
    simp
  exact ⟨h1, by rw [h1]; exact h2⟩

theorem C2_witness :
    refresh_parquet_from_csv noFaults
        (⟨some (some [⟨1, []⟩]), some (some 1), some []⟩ : FS)
      = (⟨some (some [⟨1, []⟩]), some (some 1), some []⟩ : FS) ∧
    refresh_parquet_from_csv noFaults (refresh_parquet_from_csv noFaults
        (⟨some (some [⟨1, []⟩]), some (some 1), some []⟩ : FS))
      = (⟨some (some [⟨1, []⟩]), some (some 1), some []⟩ : FS) :=
  C2_idempotent_refresh [⟨1, []⟩] 1 (some []) noFaults noFaults (by decide)

lemma refresh_cases (flt : Faults) (fs : FS) :
    refresh_parquet_from_csv flt fs = fs ∨
    ∃ rows q pq, fs.csv = some (some rows) ∧ fs.timeFile = some (some q) ∧
      fs.parquet = some pq ∧
      rows.filter (fun r => decide (q < r.time)) ≠ [] ∧
      flt.parquetWriteFails = false ∧
      ((flt.timeWriteFails = true ∧
        refresh_parquet_from_csv flt fs
          = { fs with parquet := some (pq ++ rows.filter (fun r => decide (q < r.time))) }) ∨
       (flt.timeWriteFails = false ∧
        refresh_parquet_from_csv flt fs
          = { fs with parquet := some (pq ++ rows.filter (fun r => decide (q < r.time))),
                      timeFile := some (some (maxTime rows)) })) := by
  rcases fs with ⟨c, t, p⟩
  rcases c with _ | c
  · exact Or.inl rfl
  rcases t with _ | t
  · exact Or.inl rfl
  rcases t with _ | q
  · exact Or.inl rfl
  rcases c with _ | rows
  · exact Or.inl rfl
  by_cases hd : rows.filter (fun r => decide (q < r.time)) = []
  · left
    simp only [refresh_parquet_from_csv]
    rw [if_pos hd]
  rcases p with _ | pq
  · left
    simp only [refresh_parquet_from_csv]
    rw [if_neg hd]
  cases hpw : flt.parquetWriteFails with
  | true =>
    left
    simp only [refresh_parquet_from_csv]
    rw [if_neg hd, if_pos hpw]
  | false =>
    right
    refine ⟨rows, q, pq, rfl, rfl, rfl, hd, rfl, ?_⟩
    cases htw : flt.timeWriteFails with
    | true =>
      left
      refine ⟨rfl, ?_⟩
      simp only [refresh_parquet_from_csv]
      rw [if_neg hd, if_neg (by simp [hpw]), if_pos htw]
    | false =>
      right
      refine ⟨rfl, ?_⟩
      simp only [refresh_parquet_from_csv]
      rw [if_neg hd, if_neg (by simp [hpw]), if_neg (by simp [htw])]

lemma any_maxTime_append (rows pq : List Row) (q : ℚ)
    (hd : rows.filter (fun r => decide (q < r.time)) ≠ []) :
    (pq ++ rows.filter (fun r => decide (q < r.time))).any
      (fun r => decide (maxTime rows ≤ r.time)) = true := by
  have hrows : rows ≠ [] := by
    intro h0
    rw [h0] at hd
    exact hd rfl
  obtain ⟨r0, hr0, hmax⟩ := maxTime_attained hrows
  obtain ⟨r1, hr1⟩ := List.exists_mem_of_ne_nil _ hd
  obtain ⟨hr1a, hr1b⟩ := List.mem_filter.mp hr1
  have hq : q < maxTime rows :=
    lt_of_lt_of_le (of_decide_eq_true hr1b) (le_maxTime hr1a)
  have hr0f : r0 ∈ rows.filter (fun r => decide (q < r.time)) :=
    List.mem_filter.mpr ⟨hr0, decide_eq_true (hmax ▸ hq)⟩
  exact List.any_eq_true.mpr
    ⟨r0, List.mem_append.mpr (Or.inr hr0f), decide_eq_true (le_of_eq hmax)⟩

lemma refresh_hwm_step (flt : Faults) (fs : FS) (q : ℚ)
    (h : fs.timeFile = some (some q)) :
    ∃ q2, (refresh_parquet_from_csv flt fs).timeFile = some (some q2) ∧ q ≤ q2 := by
  obtain ⟨c, t, p⟩ := fs
  replace h : t = some (some q) := h
  subst h
  rcases refresh_cases flt ⟨c, some (some q), p⟩ with heq |
    ⟨rows, q1, pq, hcsv, ht, hp, hd, hpw, hrest⟩
  · exact ⟨q, by rw [heq], le_rfl⟩
  · replace ht : some (some q) = some (some q1) := ht
    have hq1 : q1 = q := by
      injection ht with ht1
      injection ht1 with ht2
      exact ht2.symm
    rcases hrest with ⟨htw, heq⟩ | ⟨htw, heq⟩
    · exact ⟨q, by rw [heq], le_rfl⟩
    · refine ⟨maxTime rows, by rw [heq], ?_⟩
      obtain ⟨r1, hr1⟩ := List.exists_mem_of_ne_nil _ hd
      obtain ⟨hr1a, hr1b⟩ := List.mem_filter.mp hr1
      have hlt : q1 < r1.time := of_decide_eq_true hr1b
      rw [hq1] at hlt
      exact le_of_lt (lt_of_lt_of_le hlt (le_maxTime hr1a))

lemma refresh_HwmInv (flt : Faults) (fs : FS) (h : HwmInv fs) :
    HwmInv (refresh_parquet_from_csv flt fs) := by
  obtain ⟨c, t, p⟩ := fs
  rcases refresh_cases flt ⟨c, t, p⟩ with heq |
    ⟨rows, q, pq, hcsv, ht, hp, hd, hpw, hrest⟩
  · rw [heq]; exact h
  · replace ht : t = some (some q) := ht
    replace hp : p = some pq := hp
    subst ht
    subst hp
    replace h : pq.any (fun r => decide (q ≤ r.time)) = true := h
    rcases hrest with ⟨htw, heq⟩ | ⟨htw, heq⟩
    · rw [heq]
      show (pq ++ rows.filter (fun r => decide (q < r.time))).any
        (fun r => decide (q ≤ r.time)) = true
      rw [List.any_append, h]
      rfl
    · rw [heq]
      show (pq ++ rows.filter (fun r => decide (q < r.time))).any
        (fun r => decide (maxTime rows ≤ r.time)) = true
      exact any_maxTime_append rows pq q hd

/-- Claim C3: the high-water mark is monotonically non-decreasing across any
sequence of `refresh()` calls (whatever the source log holds at each tick
and whatever write faults occur), and the invariant that it never exceeds
the max time present in the columnar cache is preserved by every refresh,
preserved by the incremental branch of the bootstrap, and established by
the fresh-start branch of the bootstrap on a non-empty source. -/
theorem C3_hwm_monotone :
    (∀ (steps : List (Faults × Option (Option (List Row)))) (fs : FS) (q : ℚ),
        fs.timeFile = some (some q) →
        ∃ q2, (refreshSeq fs steps).timeFile = some (some q2) ∧ q ≤ q2) ∧
    (∀ (flt : Faults) (fs : FS), HwmInv fs →
        HwmInv (refresh_parquet_from_csv flt fs)) ∧
    (∀ (fs fs2 : FS) (pq : List Row) (tq : Option ℚ), fs.parquet = some pq →
        fs.timeFile = some tq → bootstrap fs = some fs2 → HwmInv fs → HwmInv fs2) ∧
    (∀ (fs fs2 : FS) (rows : List Row), (fs.parquet = none ∨ fs.timeFile = none) →
        fs.csv = some (some rows) → rows ≠ [] → bootstrap fs = some fs2 →
        HwmInv fs2) := by
  refine ⟨?_, ?_, ?_, ?_⟩
  · intro steps
    induction steps with
    | nil => exact fun fs q h => ⟨q, h, le_rfl⟩
    | cons st rest ih =>
      intro fs q h
      have hstep : ∃ q2, (stepRefresh fs st).timeFile = some (some q2) ∧ q ≤ q2 := by
        apply refresh_hwm_step
        obtain ⟨c, t, p⟩ := fs
        exact h
      obtain ⟨q2, h2, hle⟩ := hstep
      obtain ⟨q3, h3, hle2⟩ := ih (stepRefresh fs st) q2 h2
      exact ⟨q3, h3, le_trans hle hle2⟩
  · exact fun flt fs h => refresh_HwmInv flt fs h
  · intro fs fs2 pq tq hp ht hb h
    obtain ⟨c, t, p⟩ := fs
    replace hp : p = some pq := hp
    replace ht : t = some tq := ht
    subst hp
    subst ht
    rcases tq with _ | q
    · exact Option.noConfusion hb
    rcases c with _ | c
    · exact Option.noConfusion hb
    rcases c with _ | rows
    · exact Option.noConfusion hb
    by_cases hd : rows.filter (fun r => decide (q < r.time)) = []
    · have hbe : bootstrap ⟨some (some rows), some (some q), some pq⟩
          = some ⟨some (some rows), some (some q), some pq⟩ := by
        simp only [bootstrap]
        rw [if_pos hd]
      rw [hbe] at hb
      injection hb with hb2
      rw [← hb2]
      exact h
    · have hbe : bootstrap ⟨some (some rows), some (some q), some pq⟩
          = some ⟨some (some rows), some (some (maxTime rows)),
              some (pq ++ rows.filter (fun r => decide (q < r.time)))⟩ := by
        simp only [bootstrap]
        rw [if_neg hd]
      rw [hbe] at hb
      injection hb with hb2
      rw [← hb2]
      show (pq ++ rows.filter (fun r => decide (q < r.time))).any
        (fun r => decide (maxTime rows ≤ r.time)) = true
      exact any_maxTime_append rows pq q hd
  · intro fs fs2 rows hmiss hcsv hne hb
    obtain ⟨c, t, p⟩ := fs
    replace hcsv : c = some (some rows) := hcsv
    subst hcsv
    have hfresh : ∀ h2 : fs2 = ⟨some (some rows), some (some (maxTime rows)), some rows⟩,
        HwmInv fs2 := by
      intro h2
      rw [h2]
      show rows.any (fun r => decide (maxTime rows ≤ r.time)) = true
      obtain ⟨r0, hr0, hmax⟩ := maxTime_attained hne
      exact List.any_eq_true.mpr ⟨r0, hr0, decide_eq_true (le_of_eq hmax)⟩
    rcases hmiss with hp | ht
    · replace hp : p = none := hp
      subst hp
      apply hfresh
      injection hb with hb2
      exact hb2.symm
    · replace ht : t = none := ht
      subst ht
      rcases p with _ | pq
      · apply hfresh
        injection hb with hb2
        exact hb2.symm
      · apply hfresh
        injection hb with hb2
        exact hb2.symm

theorem C3_witness :
    HwmInv (⟨some (some [⟨2, []⟩]), some (some 1), some [⟨1, []⟩]⟩ : FS) ∧
    HwmInv (refresh_parquet_from_csv noFaults
      (⟨some (some [⟨2, []⟩]), some (some 1), some [⟨1, []⟩]⟩ : FS)) :=
  ⟨by decide, C3_hwm_monotone.2.1 noFaults
    (⟨some (some [⟨2, []⟩]), some (some 1), some [⟨1, []⟩]⟩ : FS) (by decide)⟩

/-- Claim C4: every row of the frame returned by `load_data_window` has its
time in the closed interval `[center - window, center + window]`, and when
the windowed read fails (cache unreadable after the refresh) the function
returns an empty frame instead of raising. -/
theorem C4_window_containment (flt : Faults) (fs : FS) (c w : ℚ) :
    (∀ r ∈ (load_data_window flt fs c w).1, c - w ≤ r.time ∧ r.time ≤ c + w) ∧
    ((refresh_parquet_from_csv flt fs).parquet = none →
      (load_data_window flt fs c w).1 = []) := by
  constructor
  · intro r hr
    simp only [load_data_window] at hr
    cases hp : (refresh_parquet_from_csv flt fs).parquet with
    | none => rw [hp] at hr; cases hr
    | some pq =>
      rw [hp] at hr
      obtain ⟨hmem, hcond⟩ := List.mem_filter.mp hr
      simp only [Bool.and_eq_true, decide_eq_true_eq] at hcond
      exact hcond
  · intro h
    simp only [load_data_window]
    rw [h]

lemma C4_witness_mem :
    (⟨1, []⟩ : Row) ∈
      (load_data_window noFaults (⟨none, none, some [⟨1, []⟩]⟩ : FS) 1 2).1 := by
  show (⟨1, []⟩ : Row) ∈ List.filter
    (fun r => decide ((1 : ℚ) - 2 ≤ r.time) && decide (r.time ≤ (1 : ℚ) + 2))
    [(⟨1, []⟩ : Row)]
  refine List.mem_filter.mpr ⟨List.mem_singleton.mpr rfl, ?_⟩
  simp only [Bool.and_eq_true, decide_eq_true_eq]
  norm_num

theorem C4_witness :
    ((⟨1, []⟩ : Row) ∈
      (load_data_window noFaults (⟨none, none, some [⟨1, []⟩]⟩ : FS) 1 2).1) ∧
    ((1 : ℚ) - 2 ≤ (⟨1, []⟩ : Row).time ∧ (⟨1, []⟩ : Row).time ≤ 1 + 2) :=
  ⟨C4_witness_mem,
    (C4_window_containment noFaults (⟨none, none, some [⟨1, []⟩]⟩ : FS) 1 2).1
      ⟨1, []⟩ C4_witness_mem⟩

/-- Claim C5 counterexample: with one new source row above the mark and an
I/O failure injected at the high-water-mark write (an error branch of
`refresh_parquet_from_csv`), the refresh leaves the columnar cache CHANGED
while the mark file is unchanged — refuting the claim that every failure
leaves both files unchanged (failure atomicity). -/
theorem C5_counterexample :
    (refresh_parquet_from_csv ⟨false, true⟩
        (⟨some (some [⟨1, []⟩]), some (some 0), some []⟩ : FS)).parquet
      ≠ (⟨some (some [⟨1, []⟩]), some (some 0), some []⟩ : FS).parquet ∧
    (refresh_parquet_from_csv ⟨false, true⟩
        (⟨some (some [⟨1, []⟩]), some (some 0), some []⟩ : FS)).timeFile
      = (⟨some (some [⟨1, []⟩]), some (some 0), some []⟩ : FS).timeFile := by
  decide

/-- Claim C5 (amended): `refresh()` never raises to its caller (the model
function is total, mirroring the catch-all except), and every failure
occurring before or at the cache write — missing source, malformed source,
missing or malformed high-water-mark file, unreadable cache, failed cache
write — leaves both the cache and the mark unchanged; a failure at the
high-water-mark write, however, occurs after the cache write and leaves the
mark unchanged while the cache has already been extended. -/
theorem C5_error_handling (flt : Faults) (fs : FS) :
    (fs.csv = none → refresh_parquet_from_csv flt fs = fs) ∧
    (fs.csv = some none → refresh_parquet_from_csv flt fs = fs) ∧
    (fs.timeFile = none → refresh_parquet_from_csv flt fs = fs) ∧
    (fs.timeFile = some none → refresh_parquet_from_csv flt fs = fs) ∧
    (fs.parquet = none → refresh_parquet_from_csv flt fs = fs) ∧
    (flt.parquetWriteFails = true → refresh_parquet_from_csv flt fs = fs) ∧
    (flt.timeWriteFails = true →
      (refresh_parquet_from_csv flt fs).timeFile = fs.timeFile) := by
  refine ⟨?_, ?_, ?_, ?_, ?_, ?_, ?_⟩ <;> intro h <;>
    rcases refresh_cases flt fs with heq |
      ⟨rows, q, pq, hcsv, ht, hp, hd, hpw, hrest⟩
  · exact heq
  · rw [h] at hcsv
    exact Option.noConfusion hcsv
  · exact heq
  · rw [h] at hcsv
    injection hcsv with h2
    exact Option.noConfusion h2
  · exact heq
  · rw [h] at ht
    exact Option.noConfusion ht
  · exact heq
  · rw [h] at ht
    injection ht with h2
    exact Option.noConfusion h2
  · exact heq
  · rw [h] at hp
    exact Option.noConfusion hp
  · exact heq
  · rw [h] at hpw
    exact Bool.noConfusion hpw
  · rw [heq]
  · rcases hrest with ⟨htw, heq⟩ | ⟨htw, heq⟩
    · rw [heq]
    · rw [h] at htw
      exact Bool.noConfusion htw

theorem C5_error_handling_witness :
    refresh_parquet_from_csv ⟨true, false⟩
        (⟨some (some [⟨1, []⟩]), some (some 0), some []⟩ : FS)
      = (⟨some (some [⟨1, []⟩]), some (some 0), some []⟩ : FS) ∧
    (refresh_parquet_from_csv ⟨false, true⟩
        (⟨some (some [⟨1, []⟩]), some (some 0), some []⟩ : FS)).timeFile
      = (⟨some (some [⟨1, []⟩]), some (some 0), some []⟩ : FS).timeFile :=
  ⟨(C5_error_handling ⟨true, false⟩
      (⟨some (some [⟨1, []⟩]), some (some 0), some []⟩ : FS)).2.2.2.2.2.1 rfl,
   (C5_error_handling ⟨false, true⟩
      (⟨some (some [⟨1, []⟩]), some (some 0), some []⟩ : FS)).2.2.2.2.2.2 rfl⟩

/-- The nearest-row resolution both `update_top_label` / `on_mouse_click` /
`handle_mouse_move` / `draw_delta_lines` (pandas
`(series - t).abs().idxmin()`) and `jump_to_edge`
(`np.argmin(np.abs(series - t))`) perform: the first index attaining the
minimal absolute time difference.  The head is kept on ties, which is
exactly the first-occurrence rule of `idxmin` / `argmin`. -/
def nearestIdx (t : ℚ) : List ℚ → ℕ
  | [] => 0
  | [_] => 0
  | x :: y :: ys =>
      if |x - t| ≤ |(y :: ys).getD (nearestIdx t (y :: ys)) 0 - t| then 0
      else nearestIdx t (y :: ys) + 1

/-- The in-memory frame `self.data`: the time column plus the per-frame
channel columns (`frame.var_name` paired with `self.data[frame.var_name]`),
in the display order of `self.frames`. -/
structure Frame where
  times : List ℚ
  channels : List (String × List ℚ)
deriving DecidableEq

/-- `np.nonzero(np.diff(vals))[0] + 1`: the indices whose value differs
from the predecessor value. -/
def changePoints (vals : List ℚ) : List ℕ :=
  (List.range vals.length).filter
    (fun i => decide (0 < i) && decide (vals.getD i 0 ≠ vals.getD (i - 1) 0))

/-- An index where a channel value differs from its immediate predecessor
(a change point / edge). -/
def IsChangePoint (vals : List ℚ) (i : ℕ) : Prop :=
  0 < i ∧ i < vals.length ∧ vals.getD i 0 ≠ vals.getD (i - 1) 0

instance (vals : List ℚ) (i : ℕ) : Decidable (IsChangePoint vals i) := by
  unfold IsChangePoint
  infer_instance

/-- The candidate one channel contributes to `jump_to_edge`: for a positive
direction `nexts[0]`, the first change point after the current index; for a
non-positive direction `prevs[-1]`, the last one before it. -/
def candFor (idxNow : ℕ) (dir : ℤ) (vals : List ℚ) : Option ℕ :=
  if 0 < dir then ((changePoints vals).filter (fun i => decide (idxNow < i))).head?
  else ((changePoints vals).filter (fun i => decide (i < idxNow))).getLast?

/-- Python `min` over a non-empty list of indices. -/
def listMin : List ℕ → ℕ
  | [] => 0
  | x :: xs => xs.foldl min x

/-- Python `max` over a non-empty list of indices. -/
def listMax : List ℕ → ℕ
  | [] => 0
  | x :: xs => xs.foldl max x

/-- `PlotWindow.jump_to_edge` (src/plot.py lines 454-486), restricted to the
new cursor time it computes: resolve the nearest row to the current time,
collect per channel the first change point after it (direction `> 0`) or
the last one before it, return unchanged when no candidates exist, else
move to the time at the min (respectively max) candidate index. -/
def jump_to_edge (fr : Frame) (cur : ℚ) (dir : ℤ) : ℚ :=
  let idxNow := nearestIdx cur fr.times
  let cands := fr.channels.filterMap (fun ch => candFor idxNow dir ch.2)
  if cands = [] then cur
  else fr.times.getD (if 0 < dir then listMin cands else listMax cands) 0

/-- The smallest change-point index of one channel strictly above the
current nearest-row index. -/
def LeastNextEdge (vals : List ℚ) (idxNow c : ℕ) : Prop :=
  IsChangePoint vals c ∧ idxNow < c ∧
    ∀ j < vals.length, IsChangePoint vals j → idxNow < j → c ≤ j

instance (vals : List ℚ) (idxNow c : ℕ) : Decidable (LeastNextEdge vals idxNow c) := by
  unfold LeastNextEdge
  infer_instance

/-- The largest change-point index of one channel strictly below the
current nearest-row index. -/
def GreatestPrevEdge (vals : List ℚ) (idxNow c : ℕ) : Prop :=
  IsChangePoint vals c ∧ c < idxNow ∧
    ∀ j < vals.length, IsChangePoint vals j → j < idxNow → j ≤ c

instance (vals : List ℚ) (idxNow c : ℕ) : Decidable (GreatestPrevEdge vals idxNow c) := by
  unfold GreatestPrevEdge
  infer_instance

/-- The worked example of the spec: one channel `A` with values
[0,0,1,1,0,0] at times [0,1,2,3,4,5]. -/
def exFrame6 : Frame := ⟨[0, 1, 2, 3, 4, 5], [("A", [0, 0, 1, 1, 0, 0])]⟩

lemma mem_changePoints {vals : List ℚ} {i : ℕ} :
    i ∈ changePoints vals ↔ IsChangePoint vals i := by
  unfold changePoints IsChangePoint
  rw [List.mem_filter, List.mem_range]
  simp only [Bool.and_eq_true, decide_eq_true_eq]
  constructor
  · rintro ⟨h1, h2, h3⟩
    exact ⟨h2, h1, h3⟩
  · rintro ⟨h1, h2, h3⟩
    exact ⟨h2, h1, h3⟩

lemma changePoints_sorted (vals : List ℚ) :
    (changePoints vals).Pairwise (· < ·) :=
  List.Pairwise.sublist (List.filter_sublist _) (List.sorted_lt_range vals.length)

lemma head?_min {l : List ℕ} (hp : l.Pairwise (· < ·)) {c : ℕ}
    (h : l.head? = some c) : c ∈ l ∧ ∀ x ∈ l, c ≤ x := by
  cases l with
  | nil => cases h
  | cons a t =>
    injection h with h2
    subst h2
    refine ⟨List.mem_cons_self _ _, ?_⟩
    intro x hx
    rcases List.mem_cons.mp hx with rfl | hx
    · exact le_rfl
    · exact le_of_lt (List.rel_of_pairwise_cons hp hx)

lemma getLast?_max {l : List ℕ} (hp : l.Pairwise (· < ·)) {c : ℕ}
    (h : l.getLast? = some c) : c ∈ l ∧ ∀ x ∈ l, x ≤ c := by
  induction l with
  | nil => cases h
  | cons a t ih =>
    cases t with
    | nil =>
      simp only [List.getLast?_singleton] at h
      injection h with h2
      subst h2
      refine ⟨List.mem_cons_self _ _, ?_⟩
      intro x hx
      rcases List.mem_cons.mp hx with rfl | hx
      · exact le_rfl
      · cases hx
    | cons b t2 =>
      rw [List.getLast?_cons_cons] at h
      obtain ⟨hc, hall⟩ := ih (List.pairwise_cons.mp hp).2 h
      refine ⟨List.mem_cons_of_mem a hc, ?_⟩
      intro x hx
      rcases List.mem_cons.mp hx with rfl | hx
      · exact le_of_lt (List.rel_of_pairwise_cons hp hc)
      · exact hall x hx

lemma foldl_min_le_init (xs : List ℕ) (a : ℕ) : xs.foldl min a ≤ a := by
  induction xs generalizing a with
  | nil => exact le_rfl
  | cons x xs ih => exact le_trans (ih (min a x)) (min_le_left a x)

lemma foldl_min_le_mem {xs : List ℕ} {x : ℕ} (a : ℕ) (h : x ∈ xs) :
    xs.foldl min a ≤ x := by
  induction xs generalizing a with
  | nil => cases h
  | cons y ys ih =>
    rcases List.mem_cons.mp h with rfl | hx
    · exact le_trans (foldl_min_le_init ys (min a x)) (min_le_right a x)
    · exact ih (min a y) hx

lemma foldl_min_mem (xs : List ℕ) (a : ℕ) :
    xs.foldl min a = a ∨ xs.foldl min a ∈ xs := by
  induction xs generalizing a with
  | nil => exact Or.inl rfl
  | cons x xs ih =>
    rcases ih (min a x) with h | h
    · rcases min_choice a x with hm | hm
      · exact Or.inl (by rw [List.foldl_cons, h, hm])
      · exact Or.inr (by rw [List.foldl_cons, h, hm]; exact List.mem_cons_self x xs)
    · exact Or.inr (List.mem_cons_of_mem x (by rw [List.foldl_cons]; exact h))

lemma listMin_spec {l : List ℕ} (h : l ≠ []) :
    listMin l ∈ l ∧ ∀ x ∈ l, listMin l ≤ x := by
  cases l with
  | nil => exact absurd rfl h
  | cons a t =>
    constructor
    · rcases foldl_min_mem t a with h2 | h2
      · rw [listMin, h2]; exact List.mem_cons_self a t
      · exact List.mem_cons_of_mem a h2
    · intro x hx
      rcases List.mem_cons.mp hx with rfl | hx
      · exact foldl_min_le_init t x
      · exact foldl_min_le_mem a hx

lemma foldl_max_init_le (xs : List ℕ) (a : ℕ) : a ≤ xs.foldl max a := by
  induction xs generalizing a with
  | nil => exact le_rfl
  | cons x xs ih => exact le_trans (le_max_left a x) (ih (max a x))

lemma foldl_max_mem_le {xs : List ℕ} {x : ℕ} (a : ℕ) (h : x ∈ xs) :
    x ≤ xs.foldl max a := by
  induction xs generalizing a with
  | nil => cases h
  | cons y ys ih =>
    rcases List.mem_cons.mp h with rfl | hx
    · exact le_trans (le_max_right a x) (foldl_max_init_le ys (max a x))
    · exact ih (max a y) hx

lemma foldl_max_mem (xs : List ℕ) (a : ℕ) :
    xs.foldl max a = a ∨ xs.foldl max a ∈ xs := by
  induction xs generalizing a with
  | nil => exact Or.inl rfl
  | cons x xs ih =>
    rcases ih (max a x) with h | h
    · rcases max_choice a x with hm | hm
      · exact Or.inl (by rw [List.foldl_cons, h, hm])
      · exact Or.inr (by rw [List.foldl_cons, h, hm]; exact List.mem_cons_self x xs)
    · exact Or.inr (List.mem_cons_of_mem x (by rw [List.foldl_cons]; exact h))

lemma listMax_spec {l : List ℕ} (h : l ≠ []) :
    listMax l ∈ l ∧ ∀ x ∈ l, x ≤ listMax l := by
  cases l with
  | nil => exact absurd rfl h
  | cons a t =>
    constructor
    · rcases foldl_max_mem t a with h2 | h2
      · rw [listMax, h2]; exact List.mem_cons_self a t
      · exact List.mem_cons_of_mem a h2
    · intro x hx
      rcases List.mem_cons.mp hx with rfl | hx
      · exact foldl_max_init_le t x
      · exact foldl_max_mem_le a hx

lemma candFor_pos_some {vals : List ℚ} {idxNow c : ℕ} {dir : ℤ} (hdir : 0 < dir) :
    candFor idxNow dir vals = some c ↔ LeastNextEdge vals idxNow c := by
  unfold candFor
  rw [if_pos hdir]
  have hp : ((changePoints vals).filter (fun i => decide (idxNow < i))).Pairwise (· < ·) :=
    List.Pairwise.sublist (List.filter_sublist _) (changePoints_sorted vals)
  have hmemF : ∀ x : ℕ, x ∈ (changePoints vals).filter (fun i => decide (idxNow < i)) ↔
      IsChangePoint vals x ∧ idxNow < x := by
    intro x
    rw [List.mem_filter, mem_changePoints, decide_eq_true_eq]
  constructor
  · intro h
    obtain ⟨hc, hmin⟩ := head?_min hp h
    obtain ⟨hcp, hgt⟩ := (hmemF c).mp hc
    refine ⟨hcp, hgt, ?_⟩
    intro j hjlen hcpj hgtj
    exact hmin j ((hmemF j).mpr ⟨hcpj, hgtj⟩)
  · rintro ⟨hcp, hgt, hleast⟩
    have hcF : c ∈ (changePoints vals).filter (fun i => decide (idxNow < i)) :=
      (hmemF c).mpr ⟨hcp, hgt⟩
    cases hH : ((changePoints vals).filter (fun i => decide (idxNow < i))).head? with
    | none =>
      rw [List.head?_eq_none_iff] at hH
      rw [hH] at hcF
      cases hcF
    | some c0 =>
      obtain ⟨hc0, hmin⟩ := head?_min hp hH
      obtain ⟨hcp0, hgt0⟩ := (hmemF c0).mp hc0
      have h1 : c ≤ c0 := hleast c0 hcp0.2.1 hcp0 hgt0
      have h2 : c0 ≤ c := hmin c hcF
      exact congrArg some (le_antisymm h2 h1)

lemma candFor_pos_none {vals : List ℚ} {idxNow : ℕ} {dir : ℤ} (hdir : 0 < dir) :
    candFor idxNow dir vals = none ↔
      ∀ j, ¬(IsChangePoint vals j ∧ idxNow < j) := by
  unfold candFor
  rw [if_pos hdir, List.head?_eq_none_iff, List.eq_nil_iff_forall_not_mem]
  refine forall_congr' (fun j => ?_)
  rw [List.mem_filter, mem_changePoints, decide_eq_true_eq]

lemma candFor_neg_some {vals : List ℚ} {idxNow c : ℕ} {dir : ℤ} (hdir : ¬ 0 < dir) :
    candFor idxNow dir vals = some c ↔ GreatestPrevEdge vals idxNow c := by
  unfold candFor
  rw [if_neg hdir]
  have hp : ((changePoints vals).filter (fun i => decide (i < idxNow))).Pairwise (· < ·) :=
    List.Pairwise.sublist (List.filter_sublist _) (changePoints_sorted vals)
  have hmemF : ∀ x : ℕ, x ∈ (changePoints vals).filter (fun i => decide (i < idxNow)) ↔
      IsChangePoint vals x ∧ x < idxNow := by
    intro x
    rw [List.mem_filter, mem_changePoints, decide_eq_true_eq]
  constructor
  · intro h
    obtain ⟨hc, hmax⟩ := getLast?_max hp h
    obtain ⟨hcp, hlt⟩ := (hmemF c).mp hc
    refine ⟨hcp, hlt, ?_⟩
    intro j hjlen hcpj hltj
    exact hmax j ((hmemF j).mpr ⟨hcpj, hltj⟩)
  · rintro ⟨hcp, hlt, hgreatest⟩
    have hcF : c ∈ (changePoints vals).filter (fun i => decide (i < idxNow)) :=
      (hmemF c).mpr ⟨hcp, hlt⟩
    cases hH : ((changePoints vals).filter (fun i => decide (i < idxNow))).getLast? with
    | none =>
      rw [List.getLast?_eq_none_iff] at hH
      rw [hH] at hcF
      cases hcF
    | some c0 =>
      obtain ⟨hc0, hmax⟩ := getLast?_max hp hH
      obtain ⟨hcp0, hlt0⟩ := (hmemF c0).mp hc0
      have h1 : c0 ≤ c := hgreatest c0 hcp0.2.1 hcp0 hlt0
      have h2 : c ≤ c0 := hmax c hcF
      exact congrArg some (le_antisymm h1 h2)

lemma candFor_neg_none {vals : List ℚ} {idxNow : ℕ} {dir : ℤ} (hdir : ¬ 0 < dir) :
    candFor idxNow dir vals = none ↔
      ∀ j, ¬(IsChangePoint vals j ∧ j < idxNow) := by
  unfold candFor
  rw [if_neg hdir, List.getLast?_eq_none_iff, List.eq_nil_iff_forall_not_mem]
  refine forall_congr' (fun j => ?_)
  rw [List.mem_filter, mem_changePoints, decide_eq_true_eq]

lemma jump_to_edge_eq (fr : Frame) (cur : ℚ) (dir : ℤ) :
    jump_to_edge fr cur dir =
      if fr.channels.filterMap (fun ch => candFor (nearestIdx cur fr.times) dir ch.2) = []
      then cur
      else fr.times.getD
        (if 0 < dir
         then listMin (fr.channels.filterMap
            (fun ch => candFor (nearestIdx cur fr.times) dir ch.2))
         else listMax (fr.channels.filterMap
            (fun ch => candFor (nearestIdx cur fr.times) dir ch.2))) 0 := rfl

lemma jump_pos_noop (fr : Frame) (cur : ℚ)
    (h : ∀ ch ∈ fr.channels, ∀ j,
      ¬(IsChangePoint ch.2 j ∧ nearestIdx cur fr.times < j)) :
    jump_to_edge fr cur 1 = cur := by
  rw [jump_to_edge_eq]
  have hcands : fr.channels.filterMap
      (fun ch => candFor (nearestIdx cur fr.times) 1 ch.2) = [] := by
    rw [List.filterMap_eq_nil_iff]
    intro ch hch
    exact (candFor_pos_none (by norm_num)).mpr (h ch hch)
  rw [if_pos hcands]

lemma jump_pos_min (fr : Frame) (cur : ℚ) (m : ℕ)
    (hex : ∃ ch ∈ fr.channels, LeastNextEdge ch.2 (nearestIdx cur fr.times) m)
    (hmin : ∀ ch ∈ fr.channels, ∀ c < ch.2.length,
      LeastNextEdge ch.2 (nearestIdx cur fr.times) c → m ≤ c) :
    jump_to_edge fr cur 1 = fr.times.getD m 0 := by
  obtain ⟨ch0, hch0, hL0⟩ := hex
  set F := fr.channels.filterMap
    (fun ch => candFor (nearestIdx cur fr.times) 1 ch.2) with hF
  have hmem : m ∈ F := by
    rw [hF]
    exact List.mem_filterMap.mpr ⟨ch0, hch0, (candFor_pos_some (by norm_num)).mpr hL0⟩
  have hne : F ≠ [] := by
    intro h0
    rw [h0] at hmem
    cases hmem
  have hall : ∀ c ∈ F, m ≤ c := by
    intro c hc
    rw [hF] at hc
    obtain ⟨ch, hch, hcf⟩ := List.mem_filterMap.mp hc
    have hL := (candFor_pos_some (by norm_num)).mp hcf
    exact hmin ch hch c hL.1.2.1 hL
  obtain ⟨hmm, hml⟩ := listMin_spec hne
  have heq : listMin F = m := le_antisymm (hml m hmem) (hall _ hmm)
  rw [jump_to_edge_eq, ← hF, if_neg hne, if_pos (show (0:ℤ) < 1 by norm_num), heq]

lemma jump_neg_noop (fr : Frame) (cur : ℚ)
    (h : ∀ ch ∈ fr.channels, ∀ j,
      ¬(IsChangePoint ch.2 j ∧ j < nearestIdx cur fr.times)) :
    jump_to_edge fr cur (-1) = cur := by
  rw [jump_to_edge_eq]
  have hcands : fr.channels.filterMap
      (fun ch => candFor (nearestIdx cur fr.times) (-1) ch.2) = [] := by
    rw [List.filterMap_eq_nil_iff]
    intro ch hch
    exact (candFor_neg_none (by norm_num)).mpr (h ch hch)
  rw [if_pos hcands]

lemma jump_neg_max (fr : Frame) (cur : ℚ) (m : ℕ)
    (hex : ∃ ch ∈ fr.channels, GreatestPrevEdge ch.2 (nearestIdx cur fr.times) m)
    (hmax : ∀ ch ∈ fr.channels, ∀ c < ch.2.length,
      GreatestPrevEdge ch.2 (nearestIdx cur fr.times) c → c ≤ m) :
    jump_to_edge fr cur (-1) = fr.times.getD m 0 := by
  obtain ⟨ch0, hch0, hL0⟩ := hex
  set F := fr.channels.filterMap
    (fun ch => candFor (nearestIdx cur fr.times) (-1) ch.2) with hF
  have hmem : m ∈ F := by
    rw [hF]
    exact List.mem_filterMap.mpr ⟨ch0, hch0, (candFor_neg_some (by norm_num)).mpr hL0⟩
  have hne : F ≠ [] := by
    intro h0
    rw [h0] at hmem
    cases hmem
  have hall : ∀ c ∈ F, c ≤ m := by
    intro c hc
    rw [hF] at hc
    obtain ⟨ch, hch, hcf⟩ := List.mem_filterMap.mp hc
    have hL := (candFor_neg_some (by norm_num)).mp hcf
    exact hmax ch hch c hL.1.2.1 hL
  obtain ⟨hmm, hml⟩ := listMax_spec hne
  have heq : listMax F = m := le_antisymm (hall _ hmm) (hml m hmem)
  rw [jump_to_edge_eq, ← hF, if_neg hne,
    if_neg (show ¬ (0:ℤ) < -1 by norm_num), heq]

lemma jump_example_step1 : jump_to_edge exFrame6 0 1 = 2 := by
  have hn : nearestIdx 0 exFrame6.times = 0 := by
    norm_num [nearestIdx, exFrame6, abs_eq_max_neg, max_def]
  rw [jump_to_edge_eq, hn]
  decide

lemma jump_example_step2 : jump_to_edge exFrame6 2 1 = 4 := by
  have hn : nearestIdx 2 exFrame6.times = 2 := by
    norm_num [nearestIdx, exFrame6, abs_eq_max_neg, max_def]
  rw [jump_to_edge_eq, hn]
  decide

/-- Claim C6: `jump_to_edge(+1)` moves the cursor to the row whose index is
the minimum, over all channels, of each channel's smallest change-point
index strictly greater than the current nearest-row index;
`jump_to_edge(-1)` symmetrically uses the maximum over channels of the
largest change-point index strictly smaller; with no qualifying change
point in any channel the cursor is unchanged.  In particular, on a channel
with values [0,0,1,1,0,0] at times [0,1,2,3,4,5] starting at time 0, one
jump lands at time 2 and a second at time 4. -/
theorem C6_jump_to_edge (fr : Frame) (cur : ℚ) :
    ((∀ ch ∈ fr.channels, ∀ j,
        ¬(IsChangePoint ch.2 j ∧ nearestIdx cur fr.times < j)) →
      jump_to_edge fr cur 1 = cur) ∧
    (∀ m, (∃ ch ∈ fr.channels, LeastNextEdge ch.2 (nearestIdx cur fr.times) m) →
      (∀ ch ∈ fr.channels, ∀ c < ch.2.length,
        LeastNextEdge ch.2 (nearestIdx cur fr.times) c → m ≤ c) →
      jump_to_edge fr cur 1 = fr.times.getD m 0) ∧
    ((∀ ch ∈ fr.channels, ∀ j,
        ¬(IsChangePoint ch.2 j ∧ j < nearestIdx cur fr.times)) →
      jump_to_edge fr cur (-1) = cur) ∧
    (∀ m, (∃ ch ∈ fr.channels, GreatestPrevEdge ch.2 (nearestIdx cur fr.times) m) →
      (∀ ch ∈ fr.channels, ∀ c < ch.2.length,
        GreatestPrevEdge ch.2 (nearestIdx cur fr.times) c → c ≤ m) →
      jump_to_edge fr cur (-1) = fr.times.getD m 0) ∧
    (jump_to_edge exFrame6 0 1 = 2 ∧ jump_to_edge exFrame6 2 1 = 4) :=
  ⟨jump_pos_noop fr cur,
   fun m => jump_pos_min fr cur m,
   jump_neg_noop fr cur,
   fun m => jump_neg_max fr cur m,
   jump_example_step1, jump_example_step2⟩

theorem C6_witness :
    (∃ ch ∈ exFrame6.channels, LeastNextEdge ch.2 (nearestIdx 0 exFrame6.times) 2) ∧
    (∀ ch ∈ exFrame6.channels, ∀ c < ch.2.length,
      LeastNextEdge ch.2 (nearestIdx 0 exFrame6.times) c → 2 ≤ c) ∧
    jump_to_edge exFrame6 0 1 = exFrame6.times.getD 2 0 := by
  have hn : nearestIdx 0 exFrame6.times = 0 := by
    norm_num [nearestIdx, exFrame6, abs_eq_max_neg, max_def]
  have hA : ∃ ch ∈ exFrame6.channels,
      LeastNextEdge ch.2 (nearestIdx 0 exFrame6.times) 2 := by
    rw [hn]
    decide
  have hB : ∀ ch ∈ exFrame6.channels, ∀ c < ch.2.length,
      LeastNextEdge ch.2 (nearestIdx 0 exFrame6.times) c → 2 ≤ c := by
    rw [hn]
    decide
  exact ⟨hA, hB, (C6_jump_to_edge exFrame6 0).2.1 2 hA hB⟩

lemma nearestIdx_cons_cons (t x y : ℚ) (ys : List ℚ) :
    nearestIdx t (x :: y :: ys) =
      if |x - t| ≤ |(y :: ys).getD (nearestIdx t (y :: ys)) 0 - t| then 0
      else nearestIdx t (y :: ys) + 1 := rfl

lemma nearestIdx_spec (t : ℚ) (l : List ℚ) (h : l ≠ []) :
    nearestIdx t l < l.length ∧
    ∀ j < l.length,
      |l.getD (nearestIdx t l) 0 - t| ≤ |l.getD j 0 - t| ∧
      (|l.getD j 0 - t| = |l.getD (nearestIdx t l) 0 - t| → nearestIdx t l ≤ j) := by
  induction l with
  | nil => exact absurd rfl h
  | cons x xs ih =>
    cases xs with
    | nil =>
      refine ⟨Nat.zero_lt_one, ?_⟩
      intro j hj
      have hj0 : j = 0 := Nat.lt_one_iff.mp hj
      subst hj0
      exact ⟨le_rfl, fun _ => le_rfl⟩
    | cons y ys =>
      obtain ⟨ihlen, ihspec⟩ := ih (List.cons_ne_nil y ys)
      rw [nearestIdx_cons_cons]
      by_cases hc : |x - t| ≤ |(y :: ys).getD (nearestIdx t (y :: ys)) 0 - t|
      · rw [if_pos hc]
        refine ⟨Nat.succ_pos _, ?_⟩
        intro j hj
        cases j with
        | zero => exact ⟨le_rfl, fun _ => le_rfl⟩
        | succ k =>
          have hk : k < (y :: ys).length := Nat.lt_of_succ_lt_succ hj
          rw [List.getD_cons_zero, List.getD_cons_succ]
          exact ⟨le_trans hc (ihspec k hk).1, fun _ => Nat.zero_le _⟩
      · rw [if_neg hc]
        have hlt : |(y :: ys).getD (nearestIdx t (y :: ys)) 0 - t| < |x - t| :=
          lt_of_not_le hc
        refine ⟨Nat.succ_lt_succ ihlen, ?_⟩
        intro j hj
        cases j with
        | zero =>
          rw [List.getD_cons_zero, List.getD_cons_succ]
          refine ⟨le_of_lt hlt, ?_⟩
          intro heq
          rw [heq] at hlt
          exact absurd hlt (lt_irrefl _)
        | succ k =>
          have hk : k < (y :: ys).length := Nat.lt_of_succ_lt_succ hj
          rw [List.getD_cons_succ, List.getD_cons_succ]
          exact ⟨(ihspec k hk).1,
            fun heq => Nat.succ_le_succ ((ihspec k hk).2 heq)⟩

/-- Claim C7: nearest-row resolution is deterministic with ties broken
toward the smaller index: on a non-empty time column the resolved index is
in bounds, minimizes the absolute time difference, and any other index
attaining the same minimal difference is not smaller; in particular for
times [1, 2, 3] and query 3/2 the resolution picks index 0. -/
theorem C7_nearest_tiebreak (l : List ℚ) (t : ℚ) (h : l ≠ []) :
    (nearestIdx t l < l.length ∧
      ∀ j < l.length,
        |l.getD (nearestIdx t l) 0 - t| ≤ |l.getD j 0 - t| ∧
        (|l.getD j 0 - t| = |l.getD (nearestIdx t l) 0 - t| → nearestIdx t l ≤ j)) ∧
    nearestIdx (3/2 : ℚ) [1, 2, 3] = 0 :=
  ⟨nearestIdx_spec t l h, by norm_num [nearestIdx, abs_eq_max_neg, max_def]⟩

theorem C7_witness :
    ([(1 : ℚ), 2, 3] ≠ []) ∧ nearestIdx (3/2 : ℚ) [1, 2, 3] = 0 :=
  ⟨by decide, (C7_nearest_tiebreak [1, 2, 3] (3/2) (by decide)).2⟩

/-- The delta-measurement state: `self.delta_points` and `self.delta_plot`
(the plot widget of the most recent CTRL-click, identified here by its
channel name). -/
structure DeltaState where
  delta_points : List ℚ
  delta_plot : Option String
deriving DecidableEq

/-- `PlotWindow.clear_delta_lines` (src/plot.py lines 488-494): clears the
selected points (the drawn lines and the label text are view state, not
modelled); `delta_plot` is left as is. -/
def clear_delta_lines (st : DeltaState) : DeltaState := ⟨[], st.delta_plot⟩

/-- The CTRL-click branch of `PlotWindow.on_mouse_click` (src/plot.py lines
496-510): append the picked x, rebind `delta_plot` to the clicked plot, and
when more than 2 points accumulated, clear and restart from just the new
pick. -/
def add_delta_point (st : DeltaState) (chan : String) (x : ℚ) : DeltaState :=
  if 2 < (st.delta_points ++ [x]).length then ⟨[x], some chan⟩
  else ⟨st.delta_points ++ [x], some chan⟩

/-- `self.data[frame.var_name]` for the frame bound to a plot widget:
column lookup by channel name. -/
def lookupChannel (fr : Frame) (name : String) : Option (List ℚ) :=
  (fr.channels.find? (fun c => c.1 == name)).map Prod.snd

/-- `PlotWindow.draw_delta_lines` (src/plot.py lines 536-575), restricted
to the (Δt, Δy) pair it reports: with exactly two picked points, sort them,
resolve each to its nearest row, and read BOTH y values from the single
channel bound by `delta_plot`; otherwise do nothing. -/
def draw_delta_lines (fr : Frame) (st : DeltaState) : Option (ℚ × ℚ) :=
  match st.delta_points, st.delta_plot with
  | [a, b], some name =>
    match lookupChannel fr name with
    | none => none
    | some vals =>
      some (|fr.times.getD (nearestIdx (max a b) fr.times) 0
              - fr.times.getD (nearestIdx (min a b) fr.times) 0|,
            vals.getD (nearestIdx (max a b) fr.times) 0
              - vals.getD (nearestIdx (min a b) fr.times) 0)
  | _, _ => none

/-- Claim C8: the delta selection never exceeds 2 points (any add from a
selection of at most 2 yields at most 2), a third pick resets the selection
to exactly the new pick, and in particular after picks at 1, 2, 5 the
selection holds only 5. -/
theorem C8_delta_reset (st : DeltaState) (ch : String) (x : ℚ) :
    (st.delta_points.length ≤ 2 →
      (add_delta_point st ch x).delta_points.length ≤ 2) ∧
    (st.delta_points.length = 2 → (add_delta_point st ch x).delta_points = [x]) ∧
    (add_delta_point (add_delta_point (add_delta_point ⟨[], none⟩ "A" 1) "A" 2)
        "A" 5).delta_points = [5] := by
  refine ⟨?_, ?_, by decide⟩
  · intro h
    unfold add_delta_point
    by_cases hlen : 2 < (st.delta_points ++ [x]).length
    · rw [if_pos hlen]
      simp
    · rw [if_neg hlen]
      exact Nat.le_of_not_lt hlen
  · intro h
    unfold add_delta_point
    have hlen : 2 < (st.delta_points ++ [x]).length := by
      rw [List.length_append, h]
      simp
    rw [if_pos hlen]

theorem C8_witness :
    ((⟨[1, 2], some "A"⟩ : DeltaState).delta_points.length = 2) ∧
    (add_delta_point ⟨[1, 2], some "A"⟩ "A" 5).delta_points = [5] :=
  ⟨by decide, (C8_delta_reset ⟨[1, 2], some "A"⟩ "A" 5).2.1 (by decide)⟩

/-- The cross-channel example frame: two channels with distinct values. -/
def exFrame2 : Frame := ⟨[0, 1], [("A", [10, 20]), ("B", [100, 200])]⟩

/-- Claim C10 (implicit): every pick rebinds `delta_plot` to the channel of
the most recent pick, and the Δt/Δy computation resolves BOTH picked
x-positions against that single bound channel; in particular after a pick
on channel A at x=0 and a pick on channel B at x=1, the Δy uses channel B
values for both rows (200 - 100 = 100). -/
theorem C10_delta_channel_binding (st : DeltaState) (ch : String) (x : ℚ)
    (fr : Frame) (a b : ℚ) (name : String) (vals : List ℚ) :
    ((add_delta_point st ch x).delta_plot = some ch) ∧
    (lookupChannel fr name = some vals →
      draw_delta_lines fr ⟨[a, b], some name⟩ =
        some (|fr.times.getD (nearestIdx (max a b) fr.times) 0
                - fr.times.getD (nearestIdx (min a b) fr.times) 0|,
              vals.getD (nearestIdx (max a b) fr.times) 0
                - vals.getD (nearestIdx (min a b) fr.times) 0)) ∧
    draw_delta_lines exFrame2
      (add_delta_point (add_delta_point ⟨[], none⟩ "A" 0) "B" 1) = some (1, 100) := by
  refine ⟨?_, ?_, ?_⟩
  · unfold add_delta_point
    by_cases hlen : 2 < (st.delta_points ++ [x]).length
    · rw [if_pos hlen]
    · rw [if_neg hlen]
  · intro h
    simp only [draw_delta_lines, h]
  · have hpts : add_delta_point (add_delta_point ⟨[], none⟩ "A" 0) "B" 1
        = ⟨[0, 1], some "B"⟩ := by decide
    rw [hpts]
    have hlook : lookupChannel exFrame2 "B" = some [100, 200] := by decide
    simp only [draw_delta_lines, hlook]
    have h1 : nearestIdx (min (0:ℚ) 1) exFrame2.times = 0 := by
      norm_num [nearestIdx, exFrame2, abs_eq_max_neg, max_def, min_def]
    have h2 : nearestIdx (max (0:ℚ) 1) exFrame2.times = 1 := by
      norm_num [nearestIdx, exFrame2, abs_eq_max_neg, max_def, min_def]
    rw [h1, h2]
    norm_num [exFrame2, abs_eq_max_neg, max_def]

/-- A successfully parsed view-config JSON object, with the `.get` defaults
already applied: `plot_order` defaults to the empty list, `current_time`
to 0, `x_range` to absent. -/
structure PlotConfig where
  plot_order : List String
  current_time : ℚ
  x_range : Option (ℚ × ℚ)
deriving DecidableEq

/-- The window attributes `load_plot_config` touches.  `x_range` is doubly
optional: the OUTER `none` means the attribute was never assigned (reading
it raises AttributeError), `some none` means it was assigned the JSON null
default. -/
structure WinState where
  current_time : ℚ
  x_range : Option (Option (ℚ × ℚ))
  plot_order : List String
deriving DecidableEq

/-- The attribute state right after `PlotWindow.__init__` reaches
`load_data_and_create_plots`: `current_time = 0.0` is set, `x_range` is NOT
set anywhere. -/
def initWinState : WinState := ⟨0, none, []⟩

/-- `PlotWindow.load_plot_config` (src/plot.py lines 639-648): on a parsed
file, set `current_time` and `x_range` and return the stored order; on a
missing or malformed file the except branch logs and returns `None`
WITHOUT touching any attribute. -/
def load_plot_config (file : Option (Option PlotConfig)) (st : WinState) :
    WinState × Option (List String) :=
  match file with
  | some (some cfg) =>
    ({ st with current_time := cfg.current_time, x_range := some cfg.x_range },
      some cfg.plot_order)
  | _ => (st, none)

/-- Outcome of `load_data_and_create_plots`: early return on empty data,
abort through the outer except (no plot created), or the list of channels
a plot was created for. -/
inductive PlotsOutcome where
  | noData : PlotsOutcome
  | aborted : WinState → PlotsOutcome
  | created : WinState → List String → PlotsOutcome
deriving DecidableEq

/-- `PlotWindow.load_data_and_create_plots` (src/plot.py lines 262-329),
restricted to config handling and the set of plots created.  `columns` is
the column list of the loaded data frame (time column first).  The order
falls back to `columns[1:]` when the config read returned `None` or an
empty stored order (the Python `or`).  Reading `self.x_range` when the
attribute was never assigned raises AttributeError, which the surrounding
try/except catches, returning with no plot created.  The view-range
arithmetic and the second windowed reload are view state and not
modelled. -/
def load_data_and_create_plots (file : Option (Option PlotConfig))
    (columns : List String) (dataNonempty : Bool) (st : WinState) : PlotsOutcome :=
  if !dataNonempty then .noData
  else
    let p := load_plot_config file st
    let order := match p.2 with
      | some l => if l.isEmpty then columns.drop 1 else l
      | none => columns.drop 1
    let st2 := { p.1 with plot_order := order }
    match st2.x_range with
    | none => .aborted st2
    | some _ => .created st2 (order.filter (fun c => columns.contains c))

/-- Claim C9 (code bug): with a malformed (or missing) config file,
`load_plot_config` does fall back to `None` and the channel order does fall
back to the natural source column order with `current_time` still 0 — but
`self.x_range` is never assigned (neither in `__init__` nor on the except
path), so `load_data_and_create_plots` raises AttributeError at
`if self.x_range:`, is caught by its outer except, and returns with ZERO
plots created, instead of proceeding on the defaults as the claim states.
With a well-formed config the plots are created normally. -/
theorem C9_config_abort_bug :
    load_data_and_create_plots (some none) ["t", "a", "b"] true initWinState
      = .aborted ⟨0, none, ["a", "b"]⟩ ∧
    load_data_and_create_plots none ["t", "a", "b"] true initWinState
      = .aborted ⟨0, none, ["a", "b"]⟩ ∧
    load_data_and_create_plots (some (some ⟨["a"], 3, some (1, 2)⟩))
        ["t", "a", "b"] true initWinState
      = .created ⟨3, some (some (1, 2)), ["a"]⟩ ["a"] := by
  decide

theorem C10_witness :
    lookupChannel exFrame2 "B" = some [100, 200] ∧
    draw_delta_lines exFrame2 ⟨[0, 1], some "B"⟩ =
      some (|exFrame2.times.getD (nearestIdx (max (0:ℚ) 1) exFrame2.times) 0
              - exFrame2.times.getD (nearestIdx (min (0:ℚ) 1) exFrame2.times) 0|,
            ([100, 200] : List ℚ).getD (nearestIdx (max (0:ℚ) 1) exFrame2.times) 0
              - ([100, 200] : List ℚ).getD (nearestIdx (min (0:ℚ) 1) exFrame2.times) 0) :=
  ⟨by decide,
   (C10_delta_channel_binding ⟨[], none⟩ "A" 0 exFrame2 0 1 "B" [100, 200]).2.1
     (by decide)⟩
